import Mathlib

/-!
Shallow embedding of the remote-session bootstrap subsystem of the
UpstageAI/opencode desktop application (`src-tauri/src/ssh.rs` and
`src-tauri/src/main.rs`), together with theorems settling the frozen
claims about it.

Rust strings are modelled as Lean `String` (both are sequences of Unicode
scalar values); byte streams are modelled as `List Nat` with each element
below 256; fallible Rust functions returning `Result` are modelled with
`Except String`.
-/

/-- Models Rust `char::is_whitespace` (the Unicode `White_Space` property,
a fixed list of code points). -/
def rustIsWhitespace (c : Char) : Bool :=
  c.toNat ∈ [0x09, 0x0A, 0x0B, 0x0C, 0x0D, 0x20, 0x85, 0xA0, 0x1680,
    0x2000, 0x2001, 0x2002, 0x2003, 0x2004, 0x2005, 0x2006, 0x2007,
    0x2008, 0x2009, 0x200A, 0x2028, 0x2029, 0x202F, 0x205F, 0x3000]

/-- Models Rust `str::trim`: remove leading and trailing whitespace. -/
def rustTrim (s : String) : String :=
  String.mk (((s.data.dropWhile rustIsWhitespace).reverse.dropWhile
    rustIsWhitespace).reverse)

/-- Models Rust `str::starts_with` on a string pattern. -/
def strStartsWith (s p : String) : Bool :=
  p.data.isPrefixOf s.data

/-- Models Rust `char::to_ascii_lowercase`. -/
def asciiLower (c : Char) : Char :=
  if 'A' ≤ c ∧ c ≤ 'Z' then Char.ofNat (c.toNat + 32) else c

/-- Models Rust `str::eq_ignore_ascii_case`. -/
def eqIgnoreAsciiCase (a b : String) : Bool :=
  a.data.map asciiLower == b.data.map asciiLower

/-- Helper for `splitComma`: accumulates the current field (reversed). -/
def splitCommaGo : List Char → List Char → List String
  | [], cur => [String.mk cur.reverse]
  | c :: cs, cur =>
    if c = ',' then String.mk cur.reverse :: splitCommaGo cs []
    else splitCommaGo cs (c :: cur)

/-- Models Rust `str::split(',')` (keeps empty fields; yields one field
for the empty string). -/
def splitComma (s : String) : List String :=
  splitCommaGo s.data []

/-- The loopback hosts added to the proxy-bypass lists in `main`
(`main.rs`, `LOOPBACK`). -/
def LOOPBACK : List String := ["127.0.0.1", "localhost", "::1"]

/-- The prior entries of a `NO_PROXY`-style value as the `upsert` closure
in `main` computes them: split on commas, trim, drop empties. -/
def priorItems (s : String) : List String :=
  ((splitComma s).map rustTrim).filter (fun v => v ≠ "")

/-- Models the `upsert` closure of `main` (`main.rs` lines 132-150) at the
level of item lists: extend the prior entries with each loopback host that
is not already present under ASCII-case-insensitive comparison. -/
def upsertItems (prior : String) : List String :=
  LOOPBACK.foldl
    (fun items host =>
      if items.any (fun v => eqIgnoreAsciiCase v host) then items
      else items ++ [host])
    (priorItems prior)

/-- The final environment-variable value written by the `upsert` closure:
the items joined with commas. -/
def upsertValue (prior : String) : String :=
  String.intercalate "," (upsertItems prior)

/-- Models `sh_quote`'s call to `input.replace('\'', "'\\'''")`
(`ssh.rs` line 167).  Note the replacement string in the source has five
characters: quote, backslash, quote, quote, quote. -/
def rustReplaceQuote (s : String) : String :=
  String.mk (s.data.flatMap
    (fun c => if c = '\'' then ['\'', '\\', '\'', '\'', '\''] else [c]))

/-- Models `sh_quote` (`ssh.rs` lines 166-169): replace every single quote
by the replacement string, then wrap the result in single quotes. -/
def sh_quote (input : String) : String :=
  String.mk ('\'' :: (rustReplaceQuote input).data ++ ['\''])

/-- The observable effects of `disconnect_session`, in the order the code
issues them. -/
inductive TeardownEffect where
  | killForward
  | killServer
  | killMaster
  | abortAskpass
  | removeDir
deriving DecidableEq

/-- Models `disconnect_session` (`ssh.rs` lines 515-524) as the trace of
effects it performs, parameterised by whether the session has a master
child (`session.master` is `Some`). -/
def disconnect_session (hasMaster : Bool) : List TeardownEffect :=
  [TeardownEffect.killForward, TeardownEffect.killServer]
    ++ (if hasMaster then [TeardownEffect.killMaster] else [])
    ++ [TeardownEffect.abortAskpass, TeardownEffect.removeDir]

/-- Models `ssh_prompt_reply` (`ssh.rs` lines 705-717).  The prompts table
is an association list from prompt id to the one-shot sender (senders are
opaque, modelled as `Nat`); the result records the new table, the value
sent on which sender (if any), and the command's return value.  The code
removes the entry for `id` and, when one existed, sends `value` on it;
it always returns `Ok(())`. -/
def ssh_prompt_reply (prompts : List (String × Nat)) (id : String)
    (value : String) :
    List (String × Nat) × Option (Nat × String) × Except String Unit :=
  match List.lookup id prompts with
  | none => (prompts, none, Except.ok ())
  | some tx =>
      (prompts.eraseP (fun p => p.1 == id), some (tx, value), Except.ok ())

/-- The states of the shell-word tokenizer (the `shell_words` crate's
`split`, a dependency `parse_ssh_command` calls for POSIX shell-word
splitting). -/
inductive SplitState where
  | delim
  | backslash
  | unquoted
  | unquotedBackslash
  | singleQuoted
  | doubleQuoted
  | doubleQuotedBackslash
  | comment

/-- The backtick character (written by code point to keep the source
free of stray backticks). -/
def backtick : Char := Char.ofNat 96

/-- One traversal of the `shell_words::split` state machine.  Arguments:
remaining input, current state, current word (in order), words so far. -/
def shellSplitGo : List Char → SplitState → List Char → List String →
    Except String (List String)
  | [], SplitState.delim, _, words => Except.ok words
  | [], SplitState.backslash, word, words =>
      Except.ok (words ++ [String.mk (word ++ ['\\'])])
  | [], SplitState.unquoted, word, words =>
      Except.ok (words ++ [String.mk word])
  | [], SplitState.unquotedBackslash, word, words =>
      Except.ok (words ++ [String.mk (word ++ ['\\'])])
  | [], SplitState.singleQuoted, _, _ => Except.error "missing closing quote"
  | [], SplitState.doubleQuoted, _, _ => Except.error "missing closing quote"
  | [], SplitState.doubleQuotedBackslash, _, _ =>
      Except.error "missing closing quote"
  | [], SplitState.comment, _, words => Except.ok words
  | c :: cs, SplitState.delim, word, words =>
      if c = '\'' then shellSplitGo cs SplitState.singleQuoted word words
      else if c = '"' then shellSplitGo cs SplitState.doubleQuoted word words
      else if c = '\\' then shellSplitGo cs SplitState.backslash word words
      else if c = '\t' ∨ c = ' ' ∨ c = '\n' then
        shellSplitGo cs SplitState.delim word words
      else if c = '#' then shellSplitGo cs SplitState.comment word words
      else shellSplitGo cs SplitState.unquoted (word ++ [c]) words
  | c :: cs, SplitState.backslash, word, words =>
      if c = '\n' then shellSplitGo cs SplitState.delim word words
      else shellSplitGo cs SplitState.unquoted (word ++ [c]) words
  | c :: cs, SplitState.unquoted, word, words =>
      if c = '\'' then shellSplitGo cs SplitState.singleQuoted word words
      else if c = '"' then shellSplitGo cs SplitState.doubleQuoted word words
      else if c = '\\' then shellSplitGo cs SplitState.unquotedBackslash word words
      else if c = '\t' ∨ c = ' ' ∨ c = '\n' then
        shellSplitGo cs SplitState.delim [] (words ++ [String.mk word])
      else shellSplitGo cs SplitState.unquoted (word ++ [c]) words
  | c :: cs, SplitState.unquotedBackslash, word, words =>
      if c = '\n' then shellSplitGo cs SplitState.unquoted word words
      else shellSplitGo cs SplitState.unquoted (word ++ [c]) words
  | c :: cs, SplitState.singleQuoted, word, words =>
      if c = '\'' then shellSplitGo cs SplitState.unquoted word words
      else shellSplitGo cs SplitState.singleQuoted (word ++ [c]) words
  | c :: cs, SplitState.doubleQuoted, word, words =>
      if c = '"' then shellSplitGo cs SplitState.unquoted word words
      else if c = '\\' then
        shellSplitGo cs SplitState.doubleQuotedBackslash word words
      else shellSplitGo cs SplitState.doubleQuoted (word ++ [c]) words
  | c :: cs, SplitState.doubleQuotedBackslash, word, words =>
      if c = '\n' then shellSplitGo cs SplitState.doubleQuoted word words
      else if c = '$' ∨ c = backtick ∨ c = '"' ∨ c = '\\' then
        shellSplitGo cs SplitState.doubleQuoted (word ++ [c]) words
      else shellSplitGo cs SplitState.doubleQuoted (word ++ ['\\', c]) words
  | c :: cs, SplitState.comment, word, words =>
      if c = '\n' then shellSplitGo cs SplitState.delim word words
      else shellSplitGo cs SplitState.comment word words

/-- Models `shell_words::split`: POSIX shell-word splitting, failing on an
unclosed quote. -/
def shellSplit (s : String) : Except String (List String) :=
  shellSplitGo s.data SplitState.delim [] []

/-- The parsed SSH invocation (`ssh.rs`, `struct Spec`). -/
structure Spec where
  destination : String
  args : List String
deriving DecidableEq

/-- The flag allowlist `ALLOWED_OPTS` of `parse_ssh_command`: flags that
take no value. -/
def ALLOWED_OPTS : List String :=
  ["-4", "-6", "-A", "-a", "-C", "-K", "-k", "-X", "-x", "-Y", "-y"]

/-- The flag allowlist `ALLOWED_ARGS` of `parse_ssh_command`: flags that
take one value. -/
def ALLOWED_ARGS : List String :=
  ["-B", "-b", "-c", "-D", "-F", "-I", "-i", "-J", "-l", "-m", "-o", "-P",
   "-p", "-w"]

/-- Models the inner `for opt in ALLOWED_ARGS` loop of `parse_ssh_command`
(`ssh.rs` lines 131-148): find the first allowlisted value-taking flag that
the token equals (`true`) or merely starts with (`false`). -/
def findFlagMatch : List String → String → Option (String × Bool)
  | [], _ => none
  | opt :: opts, tok =>
    if tok = opt then some (opt, true)
    else if strStartsWith tok opt then some (opt, false)
    else findFlagMatch opts tok

/-- Models the token-walking `while` loop of `parse_ssh_command`
(`ssh.rs` lines 109-157), carrying the `destination` and `args` state.
Returns the final state, or the error that aborted the loop. -/
def walkTokens : List String → Option String → List String →
    Except String (Option String × List String)
  | [], dest, args => Except.ok (dest, args)
  | tok :: rest, dest, args =>
    if dest.isSome then
      Except.error
        "SSH command cannot include a remote command; only destination + options are supported"
    else if ALLOWED_OPTS.contains tok then
      walkTokens rest dest (args ++ [tok])
    else if tok = "-L" ∨ strStartsWith tok "-L" ∨ tok = "-R" ∨
        strStartsWith tok "-R" then
      Except.error "SSH port forwarding flags (-L/-R) are not supported yet"
    else if strStartsWith tok "-" then
      match findFlagMatch ALLOWED_ARGS tok with
      | some (_, true) =>
          walkTokens (rest.drop 1) dest (args ++ tok :: rest.take 1)
      | some (_, false) => walkTokens rest dest (args ++ [tok])
      | none => Except.error ("Unsupported ssh argument: " ++ tok)
    else
      walkTokens rest (some tok) args
termination_by ts _ _ => ts.length
decreasing_by
  all_goals simp
  all_goals omega

/-- The tail of `parse_ssh_command` after tokenization: walk the tokens,
then require a destination (`ssh.rs` lines 105-163). -/
def parseTokens (tokens : List String) : Except String Spec :=
  match walkTokens tokens none [] with
  | Except.error e => Except.error e
  | Except.ok (none, _) =>
      Except.error "Missing ssh destination (e.g. user@host)"
  | Except.ok (some d, args) => Except.ok ⟨d, args⟩

/-- Models the expression
`trimmed.strip_prefix("ssh ").unwrap_or(trimmed)` of `parse_ssh_command`
(`ssh.rs` line 90). -/
def dropSshWord (trimmed : String) : String :=
  if strStartsWith trimmed "ssh " then String.mk (trimmed.data.drop 4)
  else trimmed

/-- Models `parse_ssh_command` (`ssh.rs` lines 84-164): trim, reject the
empty command, drop a leading `ssh ` prefix, tokenize, walk the tokens. -/
def parse_ssh_command (input : String) : Except String Spec :=
  if rustTrim input = "" then Except.error "SSH command is empty"
  else
    match shellSplit (dropSshWord (rustTrim input)) with
    | Except.error e => Except.error ("Invalid SSH command: " ++ e)
    | Except.ok tokens =>
      if tokens = [] then Except.error "SSH command is empty"
      else parseTokens tokens

/-- Models Rust `str::split_whitespace` (used by `parse_listening_port`):
the maximal whitespace-free runs, in order. -/
def splitWsGo : List Char → List Char → List String
  | [], acc => if acc = [] then [] else [String.mk acc.reverse]
  | c :: cs, acc =>
    if rustIsWhitespace c then
      if acc = [] then splitWsGo cs []
      else String.mk acc.reverse :: splitWsGo cs []
    else splitWsGo cs (c :: acc)

/-- Models Rust `str::split_whitespace` on a string. -/
def splitWs (s : String) : List String :=
  splitWsGo s.data []

/-- Models `hostport.rsplit(':').next()` (`ssh.rs` line 409): the suffix
after the last colon (the whole string when it has no colon). -/
def afterLastColon (s : String) : String :=
  String.mk ((s.data.reverse.takeWhile (fun c => c ≠ ':')).reverse)

/-- Models Rust `str::parse::<u16>().ok()`: an optional leading `+`, then
one or more ASCII digits, value below 2^16. -/
def parseU16 (s : String) : Option Nat :=
  let ds := match s.data with
    | '+' :: rest => rest
    | l => l
  if ds = [] then none
  else if ds.all (fun c => c.isDigit) then
    let v := ds.foldl (fun n c => n * 10 + (c.toNat - '0'.toNat)) 0
    if v < 65536 then some v else none
  else none

/-- The literal marker `parse_listening_port` looks for. -/
def listenNeedle : String := "opencode server listening on http://"

/-- Models `parse_listening_port` (`ssh.rs` lines 404-411): trim the line,
strip the marker as a prefix (fail if the trimmed line does not start with
it), take the first whitespace-delimited token of the remainder (or the
whole remainder), and parse the substring after its last colon as a
port. -/
def parse_listening_port (line : String) : Option Nat :=
  let rest := rustTrim line
  if strStartsWith rest listenNeedle then
    let rest2 := String.mk (rest.data.drop listenNeedle.data.length)
    let hostport := (splitWs rest2).headD rest2
    parseU16 (rustTrim (afterLastColon hostport))
  else none

/-- The UTF-8 encoding of one Unicode scalar value (models Rust
`str::as_bytes` char by char). -/
def utf8Bytes (c : Char) : List Nat :=
  let n := c.toNat
  if n < 0x80 then [n]
  else if n < 0x800 then [0xC0 + n / 64, 0x80 + n % 64]
  else if n < 0x10000 then
    [0xE0 + n / 4096, 0x80 + n / 64 % 64, 0x80 + n % 64]
  else
    [0xF0 + n / 262144, 0x80 + n / 4096 % 64, 0x80 + n / 64 % 64,
     0x80 + n % 64]

/-- The UTF-8 bytes of a string (models Rust `str::as_bytes`). -/
def strBytes (s : String) : List Nat :=
  s.data.flatMap utf8Bytes

/-- Whether a byte is a UTF-8 continuation byte (`10xxxxxx`). -/
def utf8Cont (b : Nat) : Bool :=
  0x80 ≤ b ∧ b < 0xC0

/-- Strict UTF-8 decoding of a byte list (models Rust
`String::from_utf8`): rejects truncated sequences, stray continuation
bytes, overlong forms, surrogates, and values above `0x10FFFF`.  The
continuation bytes are accessed with `getD`/`drop` so that the recursion
is on the remaining stream. -/
def utf8Decode : List Nat → Option (List Char)
  | [] => some []
  | b0 :: rest =>
    if b0 < 0x80 then
      (utf8Decode rest).map (fun cs => Char.ofNat b0 :: cs)
    else if b0 < 0xC2 then none
    else if b0 < 0xE0 then
      if 1 ≤ rest.length ∧ utf8Cont (rest.getD 0 0) = true then
        (utf8Decode (rest.drop 1)).map
          (fun cs =>
            Char.ofNat ((b0 - 0xC0) * 64 + (rest.getD 0 0 - 0x80)) :: cs)
      else none
    else if b0 < 0xF0 then
      if 2 ≤ rest.length ∧ utf8Cont (rest.getD 0 0) = true ∧
          utf8Cont (rest.getD 1 0) = true ∧
          (b0 = 0xE0 → 0xA0 ≤ rest.getD 0 0) ∧
          (b0 = 0xED → rest.getD 0 0 < 0xA0) then
        (utf8Decode (rest.drop 2)).map
          (fun cs =>
            Char.ofNat (((b0 - 0xE0) * 64 + (rest.getD 0 0 - 0x80)) * 64 +
              (rest.getD 1 0 - 0x80)) :: cs)
      else none
    else if b0 < 0xF5 then
      if 3 ≤ rest.length ∧ utf8Cont (rest.getD 0 0) = true ∧
          utf8Cont (rest.getD 1 0) = true ∧
          utf8Cont (rest.getD 2 0) = true ∧
          (b0 = 0xF0 → 0x90 ≤ rest.getD 0 0) ∧
          (b0 = 0xF4 → rest.getD 0 0 < 0x90) then
        (utf8Decode (rest.drop 3)).map
          (fun cs =>
            Char.ofNat ((((b0 - 0xF0) * 64 + (rest.getD 0 0 - 0x80)) * 64 +
              (rest.getD 1 0 - 0x80)) * 64 + (rest.getD 2 0 - 0x80)) :: cs)
      else none
    else none
termination_by bs => bs.length
decreasing_by
  all_goals simp
  all_goals omega

/-- Models Rust `u32::to_be_bytes` (as `Nat`s below 256). -/
def beBytes32 (n : Nat) : List Nat :=
  [n / 16777216 % 256, n / 65536 % 256, n / 256 % 256, n % 256]

/-- Models `write_reply` (`ssh.rs` lines 545-557): fail if the payload
length does not fit in a `u32`, otherwise emit the 4-byte big-endian
length followed by the UTF-8 payload. -/
def write_reply (value : String) : Except String (List Nat) :=
  let bytes := strBytes value
  if 4294967296 ≤ bytes.length then Except.error "Askpass reply too large"
  else Except.ok (beBytes32 bytes.length ++ bytes)

/-- Models `read_prompt` (`ssh.rs` lines 526-543) on a byte stream: read a
4-byte big-endian length, reject lengths above `64 * 1024`, read that many
payload bytes, and decode them as UTF-8.  Returns the decoded string and
the unread remainder of the stream. -/
def read_prompt (stream : List Nat) : Except String (String × List Nat) :=
  match stream with
  | b0 :: b1 :: b2 :: b3 :: rest =>
    let len := ((b0 * 256 + b1) * 256 + b2) * 256 + b3
    if 64 * 1024 < len then Except.error "Askpass prompt too large"
    else if rest.length < len then Except.error "Failed to read prompt"
    else
      match utf8Decode (rest.take len) with
      | some cs => Except.ok (String.mk cs, rest.drop len)
      | none => Except.error "Askpass prompt was not UTF-8"
  | _ => Except.error "Failed to read prompt length"

/-- The shape of an argument list `parse_ssh_command` may emit: a
concatenation of allowlisted no-value flags, tokens carrying an attached
value for an allowlisted value-taking flag, and allowlisted value-taking
flags each followed by the (arbitrary) token consumed as its value. -/
inductive GoodArgs : List String → Prop where
  | nil : GoodArgs []
  | opt (t : String) (rest : List String) :
      t ∈ ALLOWED_OPTS → GoodArgs rest → GoodArgs (t :: rest)
  | attached (t f : String) (rest : List String) :
      f ∈ ALLOWED_ARGS → strStartsWith t f = true → GoodArgs rest →
      GoodArgs (t :: rest)
  | sep (f v : String) (rest : List String) :
      f ∈ ALLOWED_ARGS → GoodArgs rest → GoodArgs (f :: v :: rest)

/-! ## Helper lemmas -/

theorem GoodArgs.append {xs ys : List String} (hx : GoodArgs xs)
    (hy : GoodArgs ys) : GoodArgs (xs ++ ys) := by
  induction hx with
  | nil => simpa using hy
  | opt t rest ht _ ih => exact GoodArgs.opt t _ ht ih
  | attached t f rest hf hst _ ih => exact GoodArgs.attached t f _ hf hst ih
  | sep f v rest hf _ ih => exact GoodArgs.sep f v _ hf ih

theorem findFlagMatch_exact {opts : List String} {tok f : String}
    (h : findFlagMatch opts tok = some (f, true)) :
    tok = f ∧ f ∈ opts := by
  induction opts with
  | nil => simp [findFlagMatch] at h
  | cons o os ih =>
    by_cases h1 : tok = o
    · simp [findFlagMatch, h1] at h
      exact ⟨h1.trans h, by simp [h.symm]⟩
    · by_cases h2 : strStartsWith tok o = true
      · simp [findFlagMatch, h1, h2] at h
      · simp [findFlagMatch, h1, h2] at h
        obtain ⟨h3, h4⟩ := ih h
        exact ⟨h3, by simp [h4]⟩

theorem findFlagMatch_attached {opts : List String} {tok f : String}
    (h : findFlagMatch opts tok = some (f, false)) :
    f ∈ opts ∧ strStartsWith tok f = true := by
  induction opts with
  | nil => simp [findFlagMatch] at h
  | cons o os ih =>
    by_cases h1 : tok = o
    · simp [findFlagMatch, h1] at h
    · by_cases h2 : strStartsWith tok o = true
      · simp [findFlagMatch, h1, h2] at h
        exact ⟨by simp [h.symm], h ▸ h2⟩
      · simp [findFlagMatch, h1, h2] at h
        obtain ⟨h3, h4⟩ := ih h
        exact ⟨by simp [h3], h4⟩

theorem mem_ALLOWED_OPTS_dash {t : String} (h : t ∈ ALLOWED_OPTS) :
    strStartsWith t "-" = true := by
  simp [ALLOWED_OPTS] at h
  rcases h with rfl | rfl | rfl | rfl | rfl | rfl | rfl | rfl | rfl | rfl |
    rfl <;> decide

theorem mem_ALLOWED_ARGS_len {f : String} (h : f ∈ ALLOWED_ARGS) :
    f.data.length = 2 ∧ strStartsWith f "-" = true := by
  simp [ALLOWED_ARGS] at h
  rcases h with rfl | rfl | rfl | rfl | rfl | rfl | rfl | rfl | rfl | rfl |
    rfl | rfl | rfl | rfl <;> exact ⟨rfl, rfl⟩

theorem strStartsWith_trans {t p q : String}
    (hp : strStartsWith p q = true) (h : strStartsWith t p = true) :
    strStartsWith t q = true := by
  simp only [strStartsWith, List.isPrefixOf_iff_prefix] at *
  exact hp.trans h

theorem walkTokens_destination_set (t : String) (rest : List String)
    (d : String) (args : List String) :
    walkTokens (t :: rest) (some d) args =
      Except.error
        "SSH command cannot include a remote command; only destination + options are supported" := by
  simp [walkTokens]

theorem walkTokens_ok_good :
    ∀ (n : Nat) (ts args : List String) (d : String) (args2 : List String),
    ts.length ≤ n → GoodArgs args →
    walkTokens ts none args = Except.ok (some d, args2) →
    GoodArgs args2 ∧ strStartsWith d "-" = false := by
  intro n
  induction n with
  | zero =>
    intro ts args d args2 hlen hg hw
    have hts : ts = [] := List.eq_nil_of_length_eq_zero (Nat.le_zero.mp hlen)
    subst hts
    simp [walkTokens] at hw
  | succ n ih =>
    intro ts args d args2 hlen hg hw
    cases ts with
    | nil => simp [walkTokens] at hw
    | cons tok rest =>
      have hlen2 : rest.length ≤ n := by
        simp at hlen; omega
      by_cases c2 : ALLOWED_OPTS.contains tok
      · have hmem : tok ∈ ALLOWED_OPTS := by simpa using c2
        rw [walkTokens] at hw
        simp only [Option.isSome_none, Bool.false_eq_true,
          if_false, c2, if_true] at hw
        exact ih rest (args ++ [tok]) d args2 hlen2
          (hg.append (GoodArgs.opt tok [] hmem GoodArgs.nil)) hw
      · by_cases c3 : tok = "-L" ∨ strStartsWith tok "-L" = true ∨
          tok = "-R" ∨ strStartsWith tok "-R" = true
        · rw [walkTokens] at hw
          simp only [Option.isSome_none, Bool.false_eq_true,
            if_false, c2, c3, if_true] at hw
          exact Except.noConfusion hw
        · by_cases c4 : strStartsWith tok "-" = true
          · rcases hm : findFlagMatch ALLOWED_ARGS tok with _ | ⟨f, b⟩
            · rw [walkTokens] at hw
              simp only [Option.isSome_none, Bool.false_eq_true,
                if_false, c2, c3, c4, if_true, hm] at hw
              exact Except.noConfusion hw
            · cases b with
              | true =>
                obtain ⟨rfl, hfmem⟩ := findFlagMatch_exact hm
                rw [walkTokens] at hw
                simp only [Option.isSome_none, Bool.false_eq_true,
                  if_false, c2, c3, c4, if_true, hm] at hw
                cases rest with
                | nil => simp [walkTokens] at hw
                | cons v rest2 =>
                  simp only [List.drop_succ_cons, List.drop_zero,
                    List.take_succ_cons, List.take_zero] at hw
                  have hlen3 : rest2.length ≤ n := by
                    simp at hlen; omega
                  exact ih rest2 (args ++ [tok, v]) d args2 hlen3
                    (hg.append (GoodArgs.sep tok v [] hfmem GoodArgs.nil)) hw
              | false =>
                obtain ⟨hfmem, hst⟩ := findFlagMatch_attached hm
                rw [walkTokens] at hw
                simp only [Option.isSome_none, Bool.false_eq_true,
                  if_false, c2, c3, c4, if_true, hm] at hw
                exact ih rest (args ++ [tok]) d args2 hlen2
                  (hg.append
                    (GoodArgs.attached tok f [] hfmem hst GoodArgs.nil)) hw
          · rw [walkTokens] at hw
            simp only [Option.isSome_none, Bool.false_eq_true,
              if_false, c2, c3, c4, if_true] at hw
            cases rest with
            | nil =>
              simp only [walkTokens, Except.ok.injEq, Prod.mk.injEq,
                Option.some.injEq] at hw
              obtain ⟨rfl, rfl⟩ := hw
              exact ⟨hg, by simpa using c4⟩
            | cons t2 rest2 =>
              rw [walkTokens_destination_set] at hw
              exact absurd hw (by simp)

theorem strPrefix_eq {t f g : String} (hf : strStartsWith t f = true)
    (hg : strStartsWith t g = true) (hl : f.data.length = g.data.length) :
    f = g := by
  simp only [strStartsWith, List.isPrefixOf_iff_prefix] at hf hg
  exact String.ext ((List.prefix_of_prefix_length_le hf hg
    (Nat.le_of_eq hl)).eq_of_length hl)

theorem mem_ALLOWED_OPTS_len {t : String} (h : t ∈ ALLOWED_OPTS) :
    t.data.length = 2 := by
  simp [ALLOWED_OPTS] at h
  rcases h with rfl | rfl | rfl | rfl | rfl | rfl | rfl | rfl | rfl | rfl |
    rfl <;> rfl

theorem strStartsWith_length {t p : String} (h : strStartsWith t p = true) :
    p.data.length ≤ t.data.length := by
  simp only [strStartsWith, List.isPrefixOf_iff_prefix] at h
  exact h.length_le

theorem findFlagMatch_attached_complete :
    ∀ (opts : List String) (t f : String),
    (∀ g, g ∈ opts → g.data.length = 2) → f ∈ opts →
    strStartsWith t f = true → 3 ≤ t.data.length →
    findFlagMatch opts t = some (f, false) := by
  intro opts
  induction opts with
  | nil =>
    intro t f _ hf _ _
    simp at hf
  | cons g os ih =>
    intro t f hlen hf hst hlong
    by_cases h1 : t = g
    · exfalso
      have h2 : g.data.length = 2 := hlen g (by simp)
      rw [← h1] at h2
      omega
    · by_cases h2 : strStartsWith t g = true
      · have hgf : g = f := by
          apply strPrefix_eq h2 hst
          rw [hlen g (by simp), hlen f hf]
        subst hgf
        simp [findFlagMatch, h1, h2]
      · have hfo : f ∈ os := by
          rcases List.mem_cons.mp hf with rfl | h3
          · exact absurd hst h2
          · exact h3
        simp only [findFlagMatch, if_neg h1, h2, Bool.false_eq_true,
          if_false]
        exact ih t f (fun g2 hg2 => hlen g2 (by simp [hg2])) hfo hst hlong

theorem walkTokens_nonflag (t : String) (rest args : List String)
    (h : strStartsWith t "-" = false) :
    walkTokens (t :: rest) none args = walkTokens rest (some t) args := by
  have c2 : ¬ ALLOWED_OPTS.contains t = true := by
    intro hc
    have h2 := mem_ALLOWED_OPTS_dash (by simpa using hc)
    rw [h2] at h
    exact Bool.noConfusion h
  have c3 : ¬ (t = "-L" ∨ strStartsWith t "-L" = true ∨ t = "-R" ∨
      strStartsWith t "-R" = true) := by
    rintro (rfl | hL | rfl | hR)
    · exact absurd h (by decide)
    · rw [strStartsWith_trans (by decide) hL] at h
      exact Bool.noConfusion h
    · exact absurd h (by decide)
    · rw [strStartsWith_trans (by decide) hR] at h
      exact Bool.noConfusion h
  have c4 : ¬ strStartsWith t "-" = true := by simp [h]
  rw [walkTokens]
  simp only [Option.isSome_none, Bool.false_eq_true, if_false, c2, c3, c4,
    if_true]

theorem walkTokens_attached (t f : String) (rest args : List String)
    (hf : f ∈ ALLOWED_ARGS) (hst : strStartsWith t f = true)
    (hne : t ≠ f) :
    walkTokens (t :: rest) none args = walkTokens rest none (args ++ [t]) := by
  obtain ⟨hfl, hfd⟩ := mem_ALLOWED_ARGS_len hf
  have hpl : f.data.length ≤ t.data.length := strStartsWith_length hst
  have hlong : 3 ≤ t.data.length := by
    rcases Nat.lt_or_ge t.data.length 3 with hl | hl
    · exfalso
      have hteq : t.data.length = 2 := by omega
      have : f = t := by
        apply strPrefix_eq hst (g := t) _ (by omega)
        simp [strStartsWith, List.isPrefixOf_iff_prefix]
      exact hne this.symm
    · exact hl
  have c2 : ¬ ALLOWED_OPTS.contains t = true := by
    intro hc
    have h2 := mem_ALLOWED_OPTS_len (by simpa using hc)
    omega
  have c3 : ¬ (t = "-L" ∨ strStartsWith t "-L" = true ∨ t = "-R" ∨
      strStartsWith t "-R" = true) := by
    rintro (rfl | hL | rfl | hR)
    · simp at hlong
    · have : f = "-L" := strPrefix_eq hst hL (by rw [hfl]; rfl)
      rw [this] at hf
      exact absurd hf (by decide)
    · simp at hlong
    · have : f = "-R" := strPrefix_eq hst hR (by rw [hfl]; rfl)
      rw [this] at hf
      exact absurd hf (by decide)
  have c4 : strStartsWith t "-" = true := strStartsWith_trans hfd hst
  have hm : findFlagMatch ALLOWED_ARGS t = some (f, false) :=
    findFlagMatch_attached_complete ALLOWED_ARGS t f
      (fun g hg => (mem_ALLOWED_ARGS_len hg).1) hf hst hlong
  rw [walkTokens]
  simp only [Option.isSome_none, Bool.false_eq_true, if_false, c2, c3, c4,
    if_true, hm]

theorem walkTokens_bare_argflag (f : String) (args : List String)
    (hf : f ∈ ALLOWED_ARGS) :
    walkTokens [f] none args = Except.ok (none, args ++ [f]) := by
  simp [ALLOWED_ARGS] at hf
  rcases hf with rfl | rfl | rfl | rfl | rfl | rfl | rfl | rfl | rfl | rfl |
    rfl | rfl | rfl | rfl <;>
    simp [walkTokens, findFlagMatch, strStartsWith, ALLOWED_OPTS,
      ALLOWED_ARGS]

theorem parse_ssh_command_ok_inv {input : String} {spec : Spec}
    (h : parse_ssh_command input = Except.ok spec) :
    ∃ tokens, walkTokens tokens none [] =
      Except.ok (some spec.destination, spec.args) := by
  unfold parse_ssh_command at h
  split at h
  · exact Except.noConfusion h
  · split at h
    · exact Except.noConfusion h
    · split at h
      · exact Except.noConfusion h
      · unfold parseTokens at h
        split at h
        · exact Except.noConfusion h
        · exact Except.noConfusion h
        · next d args hw =>
            obtain rfl : Spec.mk d args = spec := Except.ok.inj h
            exact ⟨_, hw⟩

theorem lookup_none_of_not_mem {l : List (String × Nat)} {id : String}
    (h : id ∉ l.map Prod.fst) : List.lookup id l = none := by
  induction l with
  | nil => rfl
  | cons p t ih =>
    obtain ⟨k, v⟩ := p
    simp only [List.map_cons, List.mem_cons] at h
    push_neg at h
    have hb : (id == k) = false := beq_eq_false_iff_ne.mpr h.1
    rw [List.lookup, hb]
    exact ih h.2

theorem lookup_eraseP_self {l : List (String × Nat)} {id : String}
    (hnd : (l.map Prod.fst).Nodup) :
    List.lookup id (l.eraseP (fun p => p.1 == id)) = none := by
  induction l with
  | nil => rfl
  | cons p t ih =>
    obtain ⟨k, v⟩ := p
    simp only [List.map_cons, List.nodup_cons] at hnd
    by_cases hk : k = id
    · rw [List.eraseP_cons_of_pos (by simp [hk])]
      exact lookup_none_of_not_mem (by rw [← hk]; exact hnd.1)
    · rw [List.eraseP_cons_of_neg (by simp [hk])]
      have hb : (id == k) = false :=
        beq_eq_false_iff_ne.mpr (fun he => hk he.symm)
      rw [List.lookup, hb]
      exact ih hnd.2

theorem foldl_upsert_eq :
    ∀ (hosts items : List String),
    hosts.Pairwise (fun a b => eqIgnoreAsciiCase a b = false) →
    hosts.foldl
      (fun acc host =>
        if acc.any (fun v => eqIgnoreAsciiCase v host) then acc
        else acc ++ [host]) items =
    items ++ hosts.filter
      (fun h2 => !(items.any (fun v => eqIgnoreAsciiCase v h2))) := by
  intro hosts
  induction hosts with
  | nil => intro items _; simp
  | cons h hs ih =>
    intro items hpw
    rw [List.pairwise_cons] at hpw
    rw [List.foldl_cons]
    by_cases q : items.any (fun v => eqIgnoreAsciiCase v h) = true
    · rw [if_pos q, ih items hpw.2, List.filter_cons]
      simp [q]
    · rw [if_neg q, ih (items ++ [h]) hpw.2, List.filter_cons]
      have hq : (!(items.any fun v => eqIgnoreAsciiCase v h)) = true := by
        simp [q]
      rw [if_pos hq]
      have hfeq : hs.filter
          (fun h2 => !((items ++ [h]).any (fun v => eqIgnoreAsciiCase v h2))) =
          hs.filter
          (fun h2 => !(items.any (fun v => eqIgnoreAsciiCase v h2))) := by
        apply List.filter_congr
        intro h2 hmem
        simp [List.any_append, hpw.1 h2 hmem]
      rw [hfeq]
      simp

/-! ## Claim theorems -/

/-- C1 counterexample: the claim asserts that a stdout line containing the
marker preceded by other text (a timestamp) parses to `Some 43117`; in the
code `parse_listening_port` strips the marker as a *prefix* of the trimmed
line, so this concrete line yields `none`. -/
theorem parse_listening_port_prefixed_line :
    parse_listening_port
      "2025-01-01 opencode server listening on http://127.0.0.1:43117  extra" =
      none := by
  decide

/-- C1 (amended): `parse_listening_port` returns `none` on every line whose
trimmed form does not start with the literal marker (in particular on lines
with a timestamp before the marker), and returns `some port` when the
trimmed line starts with the marker followed by `host:port` and trailing
text, as in the spec's example without the leading timestamp. -/
theorem parse_listening_port_amended :
    (∀ line, strStartsWith (rustTrim line) listenNeedle = false →
      parse_listening_port line = none) ∧
    parse_listening_port
      "opencode server listening on http://127.0.0.1:43117  extra" =
      some 43117 := by
  constructor
  · intro line h
    unfold parse_listening_port
    simp [h]
  · decide

/-- C1 witness: the amended theorem applied to a concrete line that does
not start with the marker. -/
theorem parse_listening_port_amended_witness :
    strStartsWith (rustTrim "2025-01-01 opencode server listening on http://127.0.0.1:43117  extra")
      listenNeedle = false ∧
    parse_listening_port
      "2025-01-01 opencode server listening on http://127.0.0.1:43117  extra" =
      none :=
  ⟨by decide, parse_listening_port_amended.1
    "2025-01-01 opencode server listening on http://127.0.0.1:43117  extra"
    (by decide)⟩

/-- C3: for every input string, `parse_ssh_command` (a total function:
termination is certified by this development) returns either an error or a
`Spec` whose `args` consist only of allowlisted flags together with their
values, and whose destination is a single non-flag token. -/
theorem parse_ssh_command_total (input : String) :
    (∃ e, parse_ssh_command input = Except.error e) ∨
    (∃ spec, parse_ssh_command input = Except.ok spec ∧ GoodArgs spec.args ∧
      strStartsWith spec.destination "-" = false) := by
  rcases hp : parse_ssh_command input with e | spec
  · exact Or.inl ⟨e, rfl⟩
  · obtain ⟨tokens, hw⟩ := parse_ssh_command_ok_inv hp
    obtain ⟨hg, hd⟩ := walkTokens_ok_good tokens.length tokens []
      spec.destination spec.args (Nat.le.refl) GoodArgs.nil hw
    exact Or.inr ⟨spec, rfl, hg, hd⟩

/-- C4 (code bug): the spec requires the POSIX escape `'\''` (four
characters), but `sh_quote` replaces each single quote with the
five-character sequence quote-backslash-quote-quote-quote, so an input
containing a single quote produces unbalanced shell quoting: the shell
tokenizer of this development rejects `sh_quote "a'b"` with a missing
closing quote, while the four-character escape the spec describes
tokenizes back to exactly `a'b`. -/
theorem sh_quote_five_char_escape :
    sh_quote (String.mk ['a', '\'', 'b']) =
      String.mk ['\'', 'a', '\'', '\\', '\'', '\'', '\'', 'b', '\''] ∧
    sh_quote (String.mk ['a', '\'', 'b']) ≠
      String.mk ['\'', 'a', '\'', '\\', '\'', '\'', 'b', '\''] ∧
    shellSplit (sh_quote (String.mk ['a', '\'', 'b'])) =
      Except.error "missing closing quote" ∧
    shellSplit (String.mk ['\'', 'a', '\'', '\\', '\'', '\'', 'b', '\'']) =
      Except.ok [String.mk ['a', '\'', 'b']] := by
  refine ⟨rfl, by decide, rfl, rfl⟩

/-- C5: `disconnect_session` performs its effects in the order kill
forward, kill server, kill master (only when a master child exists), abort
the askpass task, and finally — last — remove the session directory. -/
theorem disconnect_session_order :
    disconnect_session true =
      [TeardownEffect.killForward, TeardownEffect.killServer,
       TeardownEffect.killMaster, TeardownEffect.abortAskpass,
       TeardownEffect.removeDir] ∧
    disconnect_session false =
      [TeardownEffect.killForward, TeardownEffect.killServer,
       TeardownEffect.abortAskpass, TeardownEffect.removeDir] ∧
    (∀ b, (disconnect_session b).getLast? = some TeardownEffect.removeDir) := by
  refine ⟨rfl, rfl, ?_⟩
  intro b
  cases b <;> rfl

/-- C6: the startup proxy-bypass update keeps the prior non-empty trimmed
entries in order and appends exactly the loopback hosts not already present
under ASCII-case-insensitive comparison (the appended part has no
duplicates); afterwards every loopback host is present; and the spec's
example value is produced. -/
theorem no_proxy_upsert (prior : String) :
    upsertItems prior = priorItems prior ++
      LOOPBACK.filter
        (fun h2 => !((priorItems prior).any (fun v => eqIgnoreAsciiCase v h2))) ∧
    (LOOPBACK.filter
        (fun h2 => !((priorItems prior).any (fun v => eqIgnoreAsciiCase v h2)))).Nodup ∧
    (∀ h2, h2 ∈ LOOPBACK →
      ∃ v, v ∈ upsertItems prior ∧ eqIgnoreAsciiCase v h2 = true) ∧
    upsertValue "example.com, localhost" =
      "example.com,localhost,127.0.0.1,::1" := by
  have e12 : eqIgnoreAsciiCase "127.0.0.1" "localhost" = false := by decide
  have e13 : eqIgnoreAsciiCase "127.0.0.1" "::1" = false := by decide
  have e23 : eqIgnoreAsciiCase "localhost" "::1" = false := by decide
  have hmain : upsertItems prior = priorItems prior ++
      LOOPBACK.filter
        (fun h2 => !((priorItems prior).any (fun v => eqIgnoreAsciiCase v h2))) := by
    unfold upsertItems
    exact foldl_upsert_eq LOOPBACK (priorItems prior) (by decide)
  refine ⟨hmain, List.Nodup.filter _ (by decide), ?_, by decide⟩
  intro h2 hmem
  by_cases q : (priorItems prior).any (fun v => eqIgnoreAsciiCase v h2)
  · obtain ⟨v, hv, he⟩ := List.any_eq_true.mp q
    exact ⟨v, by rw [hmain]; exact List.mem_append_left _ hv, he⟩
  · refine ⟨h2, ?_, by simp [eqIgnoreAsciiCase]⟩
    rw [hmain]
    exact List.mem_append_right _
      (List.mem_filter.mpr ⟨hmem, by simp [q]⟩)

/-- C6 witness: the theorem instantiated at the spec's example prior value
and the loopback host `localhost`. -/
theorem no_proxy_upsert_witness :
    ("localhost" : String) ∈ LOOPBACK ∧
    (∃ v, v ∈ upsertItems "example.com, localhost" ∧
      eqIgnoreAsciiCase v "localhost" = true) ∧
    upsertValue "example.com, localhost" =
      "example.com,localhost,127.0.0.1,::1" :=
  ⟨by decide,
   (no_proxy_upsert "example.com, localhost").2.2.1 "localhost" (by decide),
   (no_proxy_upsert "example.com, localhost").2.2.2⟩

/-- C7: in the token walk of `parse_ssh_command`, any token that follows
an already-set destination aborts with the remote-command error, a
non-flag token becomes the destination, and in particular
`parse_ssh_command "ssh user@host uname -a"` fails with the remote-command
error. -/
theorem parse_remote_command_rejected :
    (∀ (d t : String) (rest args : List String),
      walkTokens (t :: rest) (some d) args =
        Except.error
          "SSH command cannot include a remote command; only destination + options are supported") ∧
    (∀ (t : String) (rest args : List String),
      strStartsWith t "-" = false →
      walkTokens (t :: rest) none args = walkTokens rest (some t) args) ∧
    parse_ssh_command "ssh user@host uname -a" =
      Except.error
        "SSH command cannot include a remote command; only destination + options are supported" := by
  refine ⟨fun d t rest args => walkTokens_destination_set t rest d args,
    fun t rest args h => walkTokens_nonflag t rest args h, ?_⟩
  simp [parse_ssh_command, dropSshWord, rustTrim, rustIsWhitespace,
    shellSplit, shellSplitGo, parseTokens, walkTokens, findFlagMatch,
    strStartsWith, ALLOWED_OPTS, ALLOWED_ARGS]

/-- C7 witness: the theorem's universal parts applied to the tokens of the
spec's example command. -/
theorem parse_remote_command_rejected_witness :
    walkTokens ["uname"] (some "user@host") [] =
      Except.error
        "SSH command cannot include a remote command; only destination + options are supported" ∧
    (strStartsWith "user@host" "-" = false ∧
      walkTokens ["user@host"] none [] = walkTokens [] (some "user@host") []) :=
  ⟨parse_remote_command_rejected.1 "user@host" "uname" [] [],
   by decide,
   parse_remote_command_rejected.2.1 "user@host" [] [] (by decide)⟩

/-- C8: `ssh_prompt_reply` always returns `Ok(())`; with no entry for the
id it leaves the prompts table unchanged and sends nothing; with an entry
it sends the value on that entry's channel and removes the entry. -/
theorem ssh_prompt_reply_infallible (prompts : List (String × Nat))
    (id value : String) (hnd : (prompts.map Prod.fst).Nodup) :
    (ssh_prompt_reply prompts id value).2.2 = Except.ok () ∧
    (List.lookup id prompts = none →
      (ssh_prompt_reply prompts id value).1 = prompts ∧
      (ssh_prompt_reply prompts id value).2.1 = none) ∧
    (∀ tx, List.lookup id prompts = some tx →
      (ssh_prompt_reply prompts id value).2.1 = some (tx, value) ∧
      List.lookup id (ssh_prompt_reply prompts id value).1 = none) := by
  rcases hl : List.lookup id prompts with _ | tx
  · refine ⟨by simp [ssh_prompt_reply, hl], fun _ => ?_, fun tx h => ?_⟩
    · exact ⟨by simp [ssh_prompt_reply, hl], by simp [ssh_prompt_reply, hl]⟩
    · exact Option.noConfusion h
  · refine ⟨by simp [ssh_prompt_reply, hl], fun h => ?_, fun tx2 h => ?_⟩
    · exact Option.noConfusion h
    · obtain rfl := Option.some.inj h
      refine ⟨by simp [ssh_prompt_reply, hl], ?_⟩
      simp only [ssh_prompt_reply, hl]
      exact lookup_eraseP_self hnd

/-- C8 witness: the theorem applied to a concrete one-entry prompts table,
both for its live id and for an unknown id. -/
theorem ssh_prompt_reply_infallible_witness :
    (ssh_prompt_reply [("p1", 7)] "p1" "pw").2.2 = Except.ok () ∧
    (ssh_prompt_reply [("p1", 7)] "p1" "pw").2.1 = some (7, "pw") ∧
    (ssh_prompt_reply [("p1", 7)] "p2" "pw").1 = [("p1", 7)] :=
  ⟨(ssh_prompt_reply_infallible [("p1", 7)] "p1" "pw" (by decide)).1,
   ((ssh_prompt_reply_infallible [("p1", 7)] "p1" "pw"
      (by decide)).2.2 7 (by decide)).1,
   ((ssh_prompt_reply_infallible [("p1", 7)] "p2" "pw"
      (by decide)).2.1 (by decide)).1⟩

/-- C9: a token that merely starts with an allowed value-taking flag (is
not equal to it) is accepted and copied verbatim into `args` as a single
attached-value argument; in particular `-invalid` is accepted as an
attached value of `-i` and `parse_ssh_command "ssh -invalid host"`
succeeds. -/
theorem attached_flag_value_accepted :
    (∀ (t f : String) (rest args : List String),
      f ∈ ALLOWED_ARGS → strStartsWith t f = true → t ≠ f →
      walkTokens (t :: rest) none args = walkTokens rest none (args ++ [t])) ∧
    parse_ssh_command "ssh -invalid host" =
      Except.ok ⟨"host", ["-invalid"]⟩ := by
  refine ⟨fun t f rest args hf hst hne =>
    walkTokens_attached t f rest args hf hst hne, ?_⟩
  simp [parse_ssh_command, dropSshWord, rustTrim, rustIsWhitespace,
    shellSplit, shellSplitGo, parseTokens, walkTokens, findFlagMatch,
    strStartsWith, ALLOWED_OPTS, ALLOWED_ARGS]

/-- C9 witness: the theorem applied to the token `-invalid`, which starts
with the allowed flag `-i` without being equal to it. -/
theorem attached_flag_value_accepted_witness :
    (("-i" : String) ∈ ALLOWED_ARGS ∧
      strStartsWith "-invalid" "-i" = true ∧ "-invalid" ≠ "-i") ∧
    walkTokens ["-invalid"] none [] = walkTokens [] none ([] ++ ["-invalid"]) :=
  ⟨⟨by decide, by decide, by decide⟩,
   attached_flag_value_accepted.1 "-invalid" "-i" [] []
     (by decide) (by decide) (by decide)⟩

/-- C10: a bare allowed value-taking flag as the last token is kept in
`args` without a value (no panic, no missing-value error), and a token
walk that ends with no destination set makes `parse_ssh_command` report
the missing-destination error, as on `ssh -p` and `ssh -i key -p`. -/
theorem bare_value_flag_missing_destination :
    (∀ (f : String) (args : List String), f ∈ ALLOWED_ARGS →
      walkTokens [f] none args = Except.ok (none, args ++ [f])) ∧
    (∀ (tokens args2 : List String),
      walkTokens tokens none [] = Except.ok (none, args2) →
      parseTokens tokens =
        Except.error "Missing ssh destination (e.g. user@host)") ∧
    parse_ssh_command "ssh -p" =
      Except.error "Missing ssh destination (e.g. user@host)" ∧
    parse_ssh_command "ssh -i key -p" =
      Except.error "Missing ssh destination (e.g. user@host)" := by
  refine ⟨fun f args hf => walkTokens_bare_argflag f args hf,
    fun tokens args2 hw => ?_, ?_, ?_⟩
  · unfold parseTokens
    rw [hw]
  · simp [parse_ssh_command, dropSshWord, rustTrim, rustIsWhitespace,
      shellSplit, shellSplitGo, parseTokens, walkTokens, findFlagMatch,
      strStartsWith, ALLOWED_OPTS, ALLOWED_ARGS]
  · simp [parse_ssh_command, dropSshWord, rustTrim, rustIsWhitespace,
      shellSplit, shellSplitGo, parseTokens, walkTokens, findFlagMatch,
      strStartsWith, ALLOWED_OPTS, ALLOWED_ARGS]

/-- C10 witness: the theorem applied to the bare flag `-p` as the whole
token list. -/
theorem bare_value_flag_missing_destination_witness :
    walkTokens ["-p"] none [] = Except.ok (none, [] ++ ["-p"]) ∧
    parseTokens ["-p"] =
      Except.error "Missing ssh destination (e.g. user@host)" := by
  have h1 := bare_value_flag_missing_destination.1 "-p" [] (by decide)
  exact ⟨h1, bare_value_flag_missing_destination.2.1 ["-p"] ([] ++ ["-p"]) h1⟩

theorem utf8Decode_encode (c : Char) (bs : List Nat) :
    utf8Decode (utf8Bytes c ++ bs) = (utf8Decode bs).map (fun cs => c :: cs) := by
  have hv : c.toNat < 0xD800 ∨ (0xDFFF < c.toNat ∧ c.toNat < 0x110000) :=
    c.valid
  by_cases h1 : c.toNat < 0x80
  · have hb : utf8Bytes c = [c.toNat] := by
      unfold utf8Bytes
      rw [if_pos h1]
    rw [hb, List.singleton_append, utf8Decode, if_pos h1, Char.ofNat_toNat]
  · by_cases h2 : c.toNat < 0x800
    · have hb : utf8Bytes c =
          [0xC0 + c.toNat / 64, 0x80 + c.toNat % 64] := by
        unfold utf8Bytes
        rw [if_neg h1, if_pos h2]
      rw [hb]
      show utf8Decode ((0xC0 + c.toNat / 64) :: (0x80 + c.toNat % 64) :: bs) = _
      rw [utf8Decode]
      rw [if_neg (by omega), if_neg (by omega), if_pos (by omega)]
      rw [if_pos (by
        refine ⟨by simp, ?_⟩
        simp only [List.getD_cons_zero]
        simp [utf8Cont]
        omega)]
      simp only [List.getD_cons_zero, List.drop_succ_cons, List.drop_zero]
      have hval : (0xC0 + c.toNat / 64 - 0xC0) * 64 +
          (0x80 + c.toNat % 64 - 0x80) = c.toNat := by omega
      rw [hval, Char.ofNat_toNat]
    · by_cases h3 : c.toNat < 0x10000
      · have hb : utf8Bytes c =
            [0xE0 + c.toNat / 4096, 0x80 + c.toNat / 64 % 64,
             0x80 + c.toNat % 64] := by
          unfold utf8Bytes
          rw [if_neg h1, if_neg h2, if_pos h3]
        rw [hb]
        show utf8Decode ((0xE0 + c.toNat / 4096) ::
          (0x80 + c.toNat / 64 % 64) :: (0x80 + c.toNat % 64) :: bs) = _
        rw [utf8Decode]
        rw [if_neg (by omega), if_neg (by omega), if_neg (by omega),
          if_pos (by omega)]
        rw [if_pos (by
          refine ⟨by simp, ?_, ?_, ?_, ?_⟩ <;>
            simp only [List.getD_cons_zero, List.getD_cons_succ]
          · simp [utf8Cont]; omega
          · simp [utf8Cont]; omega
          · intro he
            omega
          · intro he
            rcases hv with hv | hv
            · omega
            · omega)]
        simp only [List.getD_cons_zero, List.getD_cons_succ,
          List.drop_succ_cons, List.drop_zero]
        have hval : ((0xE0 + c.toNat / 4096 - 0xE0) * 64 +
            (0x80 + c.toNat / 64 % 64 - 0x80)) * 64 +
            (0x80 + c.toNat % 64 - 0x80) = c.toNat := by omega
        rw [hval, Char.ofNat_toNat]
      · have h4 : c.toNat < 0x110000 := by
          rcases hv with hv | hv
          · omega
          · exact hv.2
        have hb : utf8Bytes c =
            [0xF0 + c.toNat / 262144, 0x80 + c.toNat / 4096 % 64,
             0x80 + c.toNat / 64 % 64, 0x80 + c.toNat % 64] := by
          unfold utf8Bytes
          rw [if_neg h1, if_neg h2, if_neg h3]
        rw [hb]
        show utf8Decode ((0xF0 + c.toNat / 262144) ::
          (0x80 + c.toNat / 4096 % 64) :: (0x80 + c.toNat / 64 % 64) ::
          (0x80 + c.toNat % 64) :: bs) = _
        rw [utf8Decode]
        rw [if_neg (by omega), if_neg (by omega), if_neg (by omega),
          if_neg (by omega), if_pos (by omega)]
        rw [if_pos (by
          refine ⟨by simp, ?_, ?_, ?_, ?_, ?_⟩ <;>
            simp only [List.getD_cons_zero, List.getD_cons_succ]
          · simp [utf8Cont]; omega
          · simp [utf8Cont]; omega
          · simp [utf8Cont]; omega
          · intro he
            omega
          · intro he
            omega)]
        simp only [List.getD_cons_zero, List.getD_cons_succ,
          List.drop_succ_cons, List.drop_zero]
        have hval : (((0xF0 + c.toNat / 262144 - 0xF0) * 64 +
            (0x80 + c.toNat / 4096 % 64 - 0x80)) * 64 +
            (0x80 + c.toNat / 64 % 64 - 0x80)) * 64 +
            (0x80 + c.toNat % 64 - 0x80) = c.toNat := by omega
        rw [hval, Char.ofNat_toNat]

theorem utf8Decode_flatMap (cs : List Char) :
    utf8Decode (cs.flatMap utf8Bytes) = some cs := by
  induction cs with
  | nil => simp [utf8Decode]
  | cons c cs ih =>
    rw [List.flatMap_cons, utf8Decode_encode, ih]
    rfl

theorem utf8Decode_strBytes (s : String) :
    utf8Decode (strBytes s) = some s.data :=
  utf8Decode_flatMap s.data

theorem strMkData (s : String) : String.mk s.data = s := rfl

theorem read_prompt_written (s : String)
    (h : (strBytes s).length < 4294967296) :
    read_prompt (beBytes32 (strBytes s).length ++ strBytes s) =
      (if 65536 < (strBytes s).length then
        Except.error "Askpass prompt too large"
      else Except.ok (s, [])) := by
  unfold read_prompt beBytes32
  simp only [List.cons_append, List.nil_append]
  have hlen : (((strBytes s).length / 16777216 % 256 * 256 +
      (strBytes s).length / 65536 % 256) * 256 +
      (strBytes s).length / 256 % 256) * 256 +
      (strBytes s).length % 256 = (strBytes s).length := by
    omega
  rw [hlen]
  by_cases hlarge : 65536 < (strBytes s).length
  · rw [if_pos hlarge, if_pos hlarge]
  · rw [if_neg hlarge, if_neg hlarge, if_neg (by omega), List.take_length,
      List.drop_length, utf8Decode_strBytes]

theorem strBytes_replicate_a (k : Nat) :
    strBytes (String.mk (List.replicate k 'a')) = List.replicate k 97 := by
  show (List.replicate k 'a').flatMap utf8Bytes = _
  induction k with
  | zero => rfl
  | succ k ih =>
    rw [List.replicate_succ, List.flatMap_cons, ih, List.replicate_succ,
      show utf8Bytes 'a' = [97] from rfl]
    rfl

/-- C2 counterexample: the claim asserts that `write_reply` rejects every
payload longer than 65536 bytes; the code only rejects lengths that do not
fit in a `u32`, so the 65537-byte string of `a`s is written successfully. -/
theorem write_reply_accepts_oversized :
    65536 < (strBytes (String.mk (List.replicate 65537 'a'))).length ∧
    write_reply (String.mk (List.replicate 65537 'a')) =
      Except.ok (beBytes32 (strBytes (String.mk (List.replicate 65537 'a'))).length ++
        strBytes (String.mk (List.replicate 65537 'a'))) := by
  have hlen : (strBytes (String.mk (List.replicate 65537 'a'))).length =
      65537 := by
    rw [strBytes_replicate_a, List.length_replicate]
  constructor
  · omega
  · unfold write_reply
    rw [if_neg (by omega)]

/-- C2 (amended): writing a string of at most 65536 UTF-8 bytes with
`write_reply` and reading the envelope back with `read_prompt` yields
exactly that string; but `write_reply` rejects only payloads whose length
does not fit in a `u32` — a payload of more than 65536 and fewer than 2^32
bytes is written successfully and is instead rejected on the reading side
by `read_prompt`'s 65536-byte bound. -/
theorem askpass_envelope_roundtrip (s : String) :
    ((strBytes s).length ≤ 65536 →
      write_reply s =
        Except.ok (beBytes32 (strBytes s).length ++ strBytes s) ∧
      read_prompt (beBytes32 (strBytes s).length ++ strBytes s) =
        Except.ok (s, [])) ∧
    (4294967296 ≤ (strBytes s).length →
      write_reply s = Except.error "Askpass reply too large") ∧
    (65536 < (strBytes s).length → (strBytes s).length < 4294967296 →
      write_reply s =
        Except.ok (beBytes32 (strBytes s).length ++ strBytes s) ∧
      read_prompt (beBytes32 (strBytes s).length ++ strBytes s) =
        Except.error "Askpass prompt too large") := by
  refine ⟨fun h => ⟨?_, ?_⟩, fun h => ?_, fun h1 h2 => ⟨?_, ?_⟩⟩
  · unfold write_reply
    rw [if_neg (by omega)]
  · rw [read_prompt_written s (by omega), if_neg (by omega)]
  · unfold write_reply
    rw [if_pos (by omega)]
  · unfold write_reply
    rw [if_neg (by omega)]
  · rw [read_prompt_written s (by omega), if_pos (by omega)]

/-- C2 witness: the amended theorem applied to the short string `hunter2`
(round-trips) and to the 65537-byte string of `a`s (written successfully,
rejected by the reader). -/
theorem askpass_envelope_roundtrip_witness :
    ((strBytes "hunter2").length ≤ 65536 ∧
      read_prompt (beBytes32 (strBytes "hunter2").length ++
        strBytes "hunter2") = Except.ok ("hunter2", [])) ∧
    (65536 < (strBytes (String.mk (List.replicate 65537 'a'))).length ∧
      read_prompt
        (beBytes32 (strBytes (String.mk (List.replicate 65537 'a'))).length ++
          strBytes (String.mk (List.replicate 65537 'a'))) =
        Except.error "Askpass prompt too large") := by
  have hlen : (strBytes (String.mk (List.replicate 65537 'a'))).length =
      65537 := by
    rw [strBytes_replicate_a, List.length_replicate]
  refine ⟨⟨by decide, ((askpass_envelope_roundtrip "hunter2").1 (by decide)).2⟩,
    by omega,
    ((askpass_envelope_roundtrip (String.mk (List.replicate 65537 'a'))).2.2
      (by omega) (by omega)).2⟩
